import Mathlib

/- Verification development for the tool-calling core of a Gemini-backed
   business agent.  The embedded code consists of the two side-effect
   handlers and the email validation in tools.py, and the tool-call
   orchestration loop, final-text extraction and ask entry point in app.py.
   The remote model (the Gemini chat object) is modelled as a scripted
   oracle: a chat state holding the recorded message history plus the list
   of responses the scripted model will return to successive sends.  The
   process-external sources of fresh values (uuid.uuid4() and
   datetime.now(timezone.utc)) are modelled as explicit string parameters,
   or as streams inside the tool state when the handlers are driven by the
   loop.  File appends to the two JSONL logs are modelled as appends to
   explicit event lists. -/

namespace GeminiAgent

/-- Characters matched by the Python regex class backslash-s over str:
ASCII whitespace together with the Unicode whitespace code points
(the set used by Python 3 re for str patterns). -/
def isPySpace (c : Char) : Bool :=
  c.toNat = 0x20 || (0x9 ≤ c.toNat && c.toNat ≤ 0xD) ||
  (0x1C ≤ c.toNat && c.toNat ≤ 0x1F) || c.toNat = 0x85 || c.toNat = 0xA0 ||
  c.toNat = 0x1680 || (0x2000 ≤ c.toNat && c.toNat ≤ 0x200A) ||
  c.toNat = 0x2028 || c.toNat = 0x2029 || c.toNat = 0x202F ||
  c.toNat = 0x205F || c.toNat = 0x3000

/-- A character admitted by the regex class `[^@\s]` of
`EMAIL_RE = re.compile(r"^[^@\s]+@[^@\s]+\.[^@\s]+$")` (tools.py line 26):
anything that is neither `@` nor Python whitespace. -/
def okChar (c : Char) : Bool := !(c = '@' || isPySpace c)

/-- Split a list at the first occurrence of `x`: returns the part strictly
before and the part strictly after that occurrence, or `none` when `x` does
not occur. -/
def splitAtFirst (x : Char) : List Char → Option (List Char × List Char)
  | [] => none
  | c :: cs =>
    if c = x then some ([], cs)
    else
      match splitAtFirst x cs with
      | none => none
      | some (l, r) => some (c :: l, r)

/-- Membership of a character list in the language of the regex body
`[^@\s]+@[^@\s]+\.[^@\s]+` matched against the WHOLE list.  A list is in
that language exactly when it decomposes as `l ++ '@' :: d` where `l` is a
nonempty run of `[^@\s]` characters and `d` is a run of `[^@\s]` characters
containing a `.` at some position that is neither the first nor the last of
`d` (the `.` of the pattern; the runs before and after it inside `d` must
both be nonempty, and `.` itself is an `[^@\s]` character, so `d` may hold
further dots on either side).  Because `[^@\s]` excludes `@`, the
decomposition point is necessarily the first (and only) `@`. -/
def inL (cs : List Char) : Bool :=
  match splitAtFirst '@' cs with
  | none => false
  | some (l, d) =>
    !l.isEmpty && l.all okChar && d.all okChar &&
      ((d.drop 1).dropLast.contains '.')

/-- Whether the input has an `@` with a `.` occurring somewhere after the
first `@`.  The value `false` captures exactly the inputs the spec calls
out as surely invalid: those lacking an `@` altogether, or lacking any `.`
after the `@`. -/
def dotAfterAt (cs : List Char) : Bool :=
  match splitAtFirst '@' cs with
  | none => false
  | some (_, d) => d.contains '.'

/-- The test `EMAIL_RE.match(email)` of tools.py line 44.  Python's `$`
anchor matches at the end of the string or just before a newline that ends
the string, so the untrimmed input is accepted either when it is in the
language of the regex body or when it ends in a newline whose removal
leaves a member of that language. -/
def EMAIL_RE_match (s : String) : Bool :=
  inL s.data ||
    (match s.data.getLast? with
     | some c => c = '\n' && inL s.data.dropLast
     | none => false)

/-- Python `str.strip()`: drop leading and trailing whitespace characters. -/
def pyStrip (s : String) : String :=
  ⟨((s.data.dropWhile (fun c => isPySpace c)).reverse.dropWhile
      (fun c => isPySpace c)).reverse⟩

/-- One record of the leads.jsonl append-only log (tools.py line 48); the
`event` field is the constant "lead_recorded" and is left implicit. -/
structure LeadEvent where
  ts : String
  lead_id : String
  email : String
  name : String
  message : String
deriving Repr, DecidableEq

/-- One record of the feedback.jsonl append-only log (tools.py line 62);
the `event` field is the constant "feedback_recorded" and is left
implicit. -/
structure FeedbackEvent where
  ts : String
  feedback_id : String
  question : String
deriving Repr, DecidableEq

/-- The result dictionaries the tools and the loop produce.  Every key that
occurs in any of the concrete dictionaries is a field; `none` models the
key being absent from the Python dict. -/
structure ToolResultVal where
  ok : Bool
  error : Option String
  lead_id : Option String
  feedback_id : Option String
  ts : Option String
  received_args : Option (List (String × String))
deriving Repr, DecidableEq

/-- tools.py lines 36-52.  `lead_id` and `ts` are the freshly generated
`str(uuid.uuid4())` and `datetime.now(timezone.utc).isoformat()` values,
passed explicitly; `leads` is the current content of leads.jsonl.  On an
email rejected by `EMAIL_RE.match` the function only prints a diagnostic
line and returns the failure payload, leaving the log untouched; otherwise
it appends the single stripped-field event and returns the success
payload. -/
def record_customer_interest (email name message : String)
    (lead_id ts : String) (leads : List LeadEvent) :
    ToolResultVal × List LeadEvent :=
  if !(EMAIL_RE_match email) then
    ({ ok := false, error := some "invalid_email", lead_id := some lead_id,
       feedback_id := none, ts := some ts, received_args := none }, leads)
  else
    let event : LeadEvent :=
      { ts := ts, lead_id := lead_id, email := pyStrip email,
        name := pyStrip name, message := pyStrip message }
    ({ ok := true, error := none, lead_id := some lead_id,
       feedback_id := none, ts := some ts, received_args := none },
     leads ++ [event])

/-- tools.py lines 54-66.  `fb_id` and `ts` are the fresh uuid and UTC
timestamp; `fbLog` is the current content of feedback.jsonl.  The question
is stripped and always recorded; there is no validation. -/
def record_feedback (question : String) (fb_id ts : String)
    (fbLog : List FeedbackEvent) : ToolResultVal × List FeedbackEvent :=
  let q := pyStrip question
  let event : FeedbackEvent := { ts := ts, feedback_id := fb_id, question := q }
  ({ ok := true, error := none, lead_id := none, feedback_id := some fb_id,
     ts := some ts, received_args := none }, fbLog ++ [event])

/-- One part of a model response candidate.  A text part carries a `text`
attribute; a function-call part carries a `function_call` with a tool name
and a string-valued argument mapping (the two declared tools only take
string parameters). -/
inductive Part where
  | text (s : String)
  | functionCall (name : String) (args : List (String × String))
deriving Repr, DecidableEq

/-- A response of the remote model.  `parts` is
`resp.candidates[0].content.parts`; `textProp` is the consolidated
`resp.text` property, `none` modelling the case in which reading that
property raises. -/
structure ModelResponse where
  parts : List Part
  textProp : Option String
deriving Repr, DecidableEq

/-- One entry of the chat history kept by the chat object: the user
message, a recorded model response, or a `tool` message carrying one
function response (name plus result dictionary), as built in app.py lines
125-133. -/
inductive Msg where
  | user (text : String)
  | model (parts : List Part)
  | tool (name : String) (result : ToolResultVal)
deriving Repr, DecidableEq

/-- The scripted chat object: the history recorded so far and the list of
responses the scripted remote model will return to successive sends. -/
structure ChatState where
  history : List Msg
  script : List ModelResponse
deriving Repr, DecidableEq

/-- Model of `chat.send_message(m)`: the sent message and the model's reply are
appended to the history and the reply is returned.  With a scripted model
the reply is the head of the script; an exhausted script yields `none`
(the scripted experiment provides no further response). -/
def send_message (c : ChatState) (m : Msg) :
    Option (ChatState × ModelResponse) :=
  match c.script with
  | [] => none
  | r :: rest =>
    some ({ history := c.history ++ [m, Msg.model r.parts], script := rest }, r)

/-- The tool-visible state threaded through handler invocations: the two
logs plus the streams of fresh uuid strings and clock readings the
environment will hand out next. -/
structure ToolSt where
  leads : List LeadEvent
  feedback : List FeedbackEvent
  ids : List String
  times : List String
deriving Repr, DecidableEq

/-- Outcome of invoking a Python handler with `fn(**args)`: a returned
result dictionary, a raised `TypeError` (argument-shape mismatch), or any
other raised exception with its class name and message. -/
inductive HandlerOutcome where
  | success (r : ToolResultVal)
  | typeError (details : String)
  | otherError (kind details : String)
deriving Repr, DecidableEq

/-- A registered handler: argument mapping and tool state in, outcome and
updated tool state out (side effects performed before a raise are kept). -/
abbrev Handler : Type :=
  List (String × String) → ToolSt → HandlerOutcome × ToolSt

/-- A tool registry: `reg name` is `TOOLS_MAP.get(name)`. -/
abbrev Registry : Type := String → Option Handler

/-- app.py lines 114-123: resolve the tool name and produce the tool result
to send back.  An unresolved name, a `TypeError` and any other exception
are each turned into the corresponding synthesized failure dictionary; a
returned dictionary is passed through unchanged. -/
def runToolCall (reg : Registry) (name : String)
    (args : List (String × String)) (st : ToolSt) : ToolResultVal × ToolSt :=
  match reg name with
  | none =>
    ({ ok := false, error := some ("unknown_tool:" ++ name),
       lead_id := none, feedback_id := none, ts := none,
       received_args := some args }, st)
  | some fn =>
    match fn args st with
    | (HandlerOutcome.success r, st') => (r, st')
    | (HandlerOutcome.typeError d, st') =>
      ({ ok := false, error := some ("bad_arguments:" ++ d),
         lead_id := none, feedback_id := none, ts := none,
         received_args := some args }, st')
    | (HandlerOutcome.otherError k d, st') =>
      ({ ok := false, error := some ("runtime:" ++ k ++ ":" ++ d),
         lead_id := none, feedback_id := none, ts := none,
         received_args := none }, st')

/-- Value bound to keyword `k` in the argument mapping. -/
def lookupArg (args : List (String × String)) (k : String) : Option String :=
  (args.find? (fun p => p.fst = k)).map (fun p => p.snd)

/-- Whether `fn(**args)` binds without a `TypeError` for a Python function
whose parameters are exactly `params`: every declared parameter is
supplied and no unexpected keyword is passed. -/
def kwargsExact (args : List (String × String)) (params : List String) : Bool :=
  params.all (fun k => (lookupArg args k).isSome) &&
    args.all (fun p => params.contains p.fst)

/-- record_customer_interest as a registered handler: keyword binding
against parameters (email, name, message), fresh uuid and timestamp drawn
from the state streams, then the tools.py function body. -/
def rciHandler : Handler := fun args st =>
  if kwargsExact args ["email", "name", "message"] then
    let email := (lookupArg args "email").getD ""
    let name := (lookupArg args "name").getD ""
    let message := (lookupArg args "message").getD ""
    let lead_id := st.ids.headD ""
    let ts := st.times.headD ""
    let (r, leads') := record_customer_interest email name message lead_id ts st.leads
    (HandlerOutcome.success r,
     { st with leads := leads', ids := st.ids.tail, times := st.times.tail })
  else
    (HandlerOutcome.typeError "unexpected or missing keyword arguments", st)

/-- record_feedback as a registered handler: keyword binding against the
single parameter (question), fresh uuid and timestamp drawn from the state
streams, then the tools.py function body. -/
def rfHandler : Handler := fun args st =>
  if kwargsExact args ["question"] then
    let question := (lookupArg args "question").getD ""
    let fb_id := st.ids.headD ""
    let ts := st.times.headD ""
    let (r, fb') := record_feedback question fb_id ts st.feedback
    (HandlerOutcome.success r,
     { st with feedback := fb', ids := st.ids.tail, times := st.times.tail })
  else
    (HandlerOutcome.typeError "unexpected or missing keyword arguments", st)

/-- app.py line 96: the static registry mapping the two tool names to
their handlers. -/
def TOOLS_MAP : Registry := fun name =>
  if name = "record_customer_interest" then some rciHandler
  else if name = "record_feedback" then some rfHandler
  else none

/-- The for-loop of app.py lines 107-133 over the snapshot `parts` of the
response scanned at the top of the while loop.  Text parts are skipped; for
each function-call part the tool result is produced by `runToolCall`, sent
back as one `tool` message, and the model's reply to that send replaces the
current response; `called` is the running `called_any` flag.  `none` means
the scripted model was exhausted by a send. -/
def runParts (reg : Registry) :
    List Part → ChatState → ModelResponse → ToolSt → Bool →
      Option (ChatState × ModelResponse × ToolSt × Bool)
  | [], chat, resp, st, called => some (chat, resp, st, called)
  | Part.text _ :: rest, chat, resp, st, called =>
    runParts reg rest chat resp st called
  | Part.functionCall name args :: rest, chat, resp, st, called =>
    let r := runToolCall reg name args st
    match send_message chat (Msg.tool name r.1) with
    | none => none
    | some (chat', resp') => runParts reg rest chat' resp' r.2 true

/-- The while-loop of app.py lines 103-135 (`_run_tools_if_any`): scan the
current response's parts, run and answer every function call found, and
repeat on the latest response until a scan finds no function call, then
return that response.  The loop has no iteration cap in the source; `fuel`
bounds the modelled unrolling, `none` meaning the bound (or the script) was
exhausted before the model stopped requesting tools. -/
def runLoop (reg : Registry) :
    Nat → ChatState → ModelResponse → ToolSt →
      Option (ChatState × ModelResponse × ToolSt)
  | 0, _, _, _ => none
  | fuel + 1, chat, resp, st =>
    match runParts reg resp.parts chat resp st false with
    | none => none
    | some (chat', resp', st', called) =>
      if called then runLoop reg fuel chat' resp' st'
      else some (chat', resp', st')

/-- app.py lines 143-147: the final text handed back by `ask`.  The
consolidated `final.text` property is preferred; if reading it raises, the
text attributes of the text parts of the first candidate are joined with
newlines (function-call parts carry no text attribute and are filtered
out by the hasattr guard). -/
def extractFinalText (r : ModelResponse) : String :=
  match r.textProp with
  | some t => t
  | none =>
    String.intercalate "\n"
      (r.parts.filterMap (fun p =>
        match p with
        | Part.text s => some s
        | _ => none))

/-- app.py lines 137-147 (`ask`): send the user text, run the tool loop on
the reply, and return the extracted final text together with the final
chat and tool states. -/
def ask (reg : Registry) (fuel : Nat) (chat : ChatState)
    (user_text : String) (st : ToolSt) :
    Option (String × ChatState × ToolSt) :=
  match send_message chat (Msg.user user_text) with
  | none => none
  | some (chat1, resp) =>
    match runLoop reg fuel chat1 resp st with
    | none => none
    | some (chat2, final, st2) => some (extractFinalText final, chat2, st2)

/-- The function calls contained in a parts list, in emission order. -/
def callsOfParts (ps : List Part) : List (String × List (String × String)) :=
  ps.filterMap (fun p =>
    match p with
    | Part.functionCall n a => some (n, a)
    | _ => none)

/-- The tool names of the function calls contained in a parts list. -/
def callNamesOfParts (ps : List Part) : List String :=
  (callsOfParts ps).map Prod.fst

/-- All tool names of function calls appearing in recorded model messages
of a history, in history order. -/
def callNames : List Msg → List String
  | [] => []
  | Msg.model ps :: rest => callNamesOfParts ps ++ callNames rest
  | _ :: rest => callNames rest

/-- The tool names carried by the tool-result messages of a history, in
history order. -/
def toolMsgNames : List Msg → List String
  | [] => []
  | Msg.tool n _ :: rest => n :: toolMsgNames rest
  | _ :: rest => toolMsgNames rest

/-- Transcription of the spec's step 2 rules (c)-(d) for one scanned
response, written from the spec's words: for each emitted call in order,
produce its ToolResult, append a tool message and send it back immediately
(one round-trip per call, never batched), and treat the model's reply to
that send as the new current response. -/
def specToolTurns (reg : Registry) :
    List (String × List (String × String)) → ChatState → ModelResponse →
      ToolSt → Option (ChatState × ModelResponse × ToolSt)
  | [], chat, resp, st => some (chat, resp, st)
  | (n, a) :: rest, chat, resp, st =>
    let r := runToolCall reg n a st
    match send_message chat (Msg.tool n r.1) with
    | none => none
    | some (chat', resp') => specToolTurns reg rest chat' resp' r.2

/-- Histories built from complete exchanges in which every scanned model
message carried at most one function call: user messages, call-free model
messages, and model messages whose single call is immediately answered by
a tool message naming it. -/
inductive BalancedHist : List Msg → Prop where
  | nil : BalancedHist []
  | user (h : List Msg) (t : String) :
      BalancedHist h → BalancedHist (h ++ [Msg.user t])
  | modelNoCall (h : List Msg) (ps : List Part) :
      callsOfParts ps = [] → BalancedHist h →
      BalancedHist (h ++ [Msg.model ps])
  | modelPaired (h : List Msg) (ps : List Part) (n : String)
      (a : List (String × String)) (r : ToolResultVal) :
      callsOfParts ps = [(n, a)] → BalancedHist h →
      BalancedHist (h ++ [Msg.model ps, Msg.tool n r])

/- Concrete scripted exchanges used to evaluate the loop on explicit
   inputs. -/

/-- A scripted response requesting one feedback recording. -/
def wR0 : ModelResponse :=
  { parts := [Part.functionCall "record_feedback" [("question", "q")]],
    textProp := none }

/-- A scripted call-free final response. -/
def wR1 : ModelResponse := { parts := [Part.text "done"], textProp := some "done" }

/-- Chat state right after the user turn was sent, with `wR1` left in the
script as the reply to the upcoming tool-result send. -/
def wChat0 : ChatState :=
  { history := [Msg.user "hi", Msg.model wR0.parts], script := [wR1] }

/-- Initial tool state with one fresh uuid and one clock reading. -/
def wSt0 : ToolSt := { leads := [], feedback := [], ids := ["u1"], times := ["t1"] }

/-- The result record_feedback produces for question "q" under `wSt0`. -/
def wRes : ToolResultVal :=
  { ok := true, error := none, lead_id := none, feedback_id := some "u1",
    ts := some "t1", received_args := none }

/-- Tool state after the single feedback recording. -/
def wStF : ToolSt :=
  { leads := [], feedback := [{ ts := "t1", feedback_id := "u1", question := "q" }],
    ids := [], times := [] }

/-- Final chat state of the single-call exchange. -/
def wChatF : ChatState :=
  { history := [Msg.user "hi", Msg.model wR0.parts,
      Msg.tool "record_feedback" wRes, Msg.model wR1.parts],
    script := [] }

/-- First scripted response of the dropped-call exchange: two feedback
calls in one response. -/
def cexR0 : ModelResponse :=
  { parts := [Part.functionCall "record_feedback" [("question", "a")],
      Part.functionCall "record_feedback" [("question", "b")]],
    textProp := none }

/-- Reply to the first tool-result send: it requests a further tool, which
the loop will never execute because it keeps iterating the snapshot of the
previous response's parts. -/
def cexR1 : ModelResponse :=
  { parts := [Part.functionCall "ghost_tool" []], textProp := none }

/-- Reply to the second tool-result send: call-free, ends the loop. -/
def cexR2 : ModelResponse := { parts := [Part.text "done"], textProp := some "done" }

/-- Chat state entering the loop of the dropped-call exchange. -/
def cexChat0 : ChatState :=
  { history := [Msg.user "hi", Msg.model cexR0.parts], script := [cexR1, cexR2] }

/-- Tool state entering the loop of the dropped-call exchange. -/
def cexSt0 : ToolSt :=
  { leads := [], feedback := [], ids := ["u1", "u2"], times := ["t1", "t2"] }

/-- Result of the first feedback call of the dropped-call exchange. -/
def cexResA : ToolResultVal :=
  { ok := true, error := none, lead_id := none, feedback_id := some "u1",
    ts := some "t1", received_args := none }

/-- Result of the second feedback call of the dropped-call exchange. -/
def cexResB : ToolResultVal :=
  { ok := true, error := none, lead_id := none, feedback_id := some "u2",
    ts := some "t2", received_args := none }

/-- Final chat state of the dropped-call exchange: the ghost_tool call is
recorded in history with no tool message answering it. -/
def cexChatF : ChatState :=
  { history := [Msg.user "hi", Msg.model cexR0.parts,
      Msg.tool "record_feedback" cexResA, Msg.model cexR1.parts,
      Msg.tool "record_feedback" cexResB, Msg.model cexR2.parts],
    script := [] }

/-- Final tool state of the dropped-call exchange. -/
def cexStF : ToolSt :=
  { leads := [],
    feedback := [{ ts := "t1", feedback_id := "u1", question := "a" },
      { ts := "t2", feedback_id := "u2", question := "b" }],
    ids := [], times := [] }

/-- A handler that raises: a TypeError when called with no arguments and a
ValueError otherwise; used to evaluate the loop's exception handling on an
explicit input. -/
def wBadHandler : Handler := fun args st =>
  if args.isEmpty then (HandlerOutcome.typeError "missing question", st)
  else (HandlerOutcome.otherError "ValueError" "boom", st)

/-- A registry exposing only the raising handler. -/
def wBadReg : Registry := fun n => if n = "flaky" then some wBadHandler else none

/-- A scripted call-free response whose consolidated text property
raises, leaving only two plain-text parts. -/
def wNoTextResp : ModelResponse :=
  { parts := [Part.text "a", Part.text "b"], textProp := none }

/-- Chat about to receive a user turn answered by `wNoTextResp`. -/
def wAskChat : ChatState := { history := [], script := [wNoTextResp] }

/-- Chat state after the user turn of the `wNoTextResp` exchange. -/
def wAskChat1 : ChatState :=
  { history := [Msg.user "hi", Msg.model wNoTextResp.parts], script := [] }

/- ------------------------------------------------------------------ -/
/- Helper lemmas about the email regex embedding.                      -/
/- ------------------------------------------------------------------ -/

theorem splitAtFirst_eq (x : Char) :
    ∀ (cs l r : List Char), splitAtFirst x cs = some (l, r) →
      cs = l ++ x :: r ∧ x ∉ l := by
  intro cs
  induction cs with
  | nil => intro l r h; exact absurd h (by simp [splitAtFirst])
  | cons c cs ih =>
    intro l r h
    rw [splitAtFirst] at h
    by_cases hc : c = x
    · rw [if_pos hc] at h
      simp only [Option.some.injEq, Prod.mk.injEq] at h
      obtain ⟨h1, h2⟩ := h
      subst h1; subst h2; subst hc
      exact ⟨rfl, by simp⟩
    · rw [if_neg hc] at h
      cases hs : splitAtFirst x cs with
      | none => rw [hs] at h; cases h
      | some p =>
        obtain ⟨l', r'⟩ := p
        rw [hs] at h
        simp only [Option.some.injEq, Prod.mk.injEq] at h
        obtain ⟨h1, h2⟩ := h
        subst h2
        obtain ⟨hcs, hx⟩ := ih l' r' hs
        subst h1
        refine ⟨by simp [hcs], ?_⟩
        intro hmem
        rcases List.mem_cons.mp hmem with h | h
        · exact hc h.symm
        · exact hx h

theorem splitAtFirst_of_append (x : Char) :
    ∀ (l r : List Char), x ∉ l → splitAtFirst x (l ++ x :: r) = some (l, r) := by
  intro l
  induction l with
  | nil => intro r _; simp [splitAtFirst]
  | cons c l ih =>
    intro r hx
    have hc : ¬ c = x := fun h => hx (List.mem_cons.mpr (Or.inl h.symm))
    rw [List.cons_append, splitAtFirst, if_neg hc,
      ih r (fun h => hx (List.mem_cons_of_mem c h))]

/-- Destructor of `inL`: a member of the regex language decomposes at its
unique `@`. -/
theorem inL_decomp {cs : List Char} (h : inL cs = true) :
    ∃ l d, cs = l ++ '@' :: d ∧ l ≠ [] ∧ (∀ c ∈ l, okChar c = true) ∧
      (∀ c ∈ d, okChar c = true) ∧ '.' ∈ (d.drop 1).dropLast ∧ '@' ∉ l := by
  unfold inL at h
  cases hs : splitAtFirst '@' cs with
  | none => rw [hs] at h; cases h
  | some p =>
    obtain ⟨l, d⟩ := p
    rw [hs] at h
    simp only [Bool.and_eq_true, Bool.not_eq_true', List.all_eq_true] at h
    obtain ⟨⟨⟨hne, hl⟩, hd⟩, hdot⟩ := h
    obtain ⟨hcs, hnotin⟩ := splitAtFirst_eq '@' cs l d hs
    refine ⟨l, d, hcs, ?_, hl, hd, List.elem_iff.mp hdot, hnotin⟩
    intro hnil
    rw [hnil] at hne
    cases hne

theorem inL_dotAfterAt {cs : List Char} (h : inL cs = true) :
    dotAfterAt cs = true := by
  unfold inL at h
  unfold dotAfterAt
  cases hs : splitAtFirst '@' cs with
  | none => rw [hs] at h; cases h
  | some p =>
    obtain ⟨l, d⟩ := p
    rw [hs] at h
    simp only [Bool.and_eq_true] at h
    have hdot : '.' ∈ (d.drop 1).dropLast := List.elem_iff.mp h.2
    have : '.' ∈ d :=
      ((List.dropLast_sublist (d.drop 1)).trans (List.drop_sublist 1 d)).mem hdot
    exact List.elem_iff.mpr this

theorem inL_dropLast_dotAfterAt {cs : List Char} (hlast : cs.getLast? = some '\n')
    (h : inL cs.dropLast = true) : dotAfterAt cs = true := by
  obtain ⟨l, d, hdec, _, _, _, hdot, hnotin⟩ := inL_decomp h
  have hcs : cs.dropLast ++ ['\n'] = cs :=
    List.dropLast_append_getLast? '\n' hlast
  have hdotd : '.' ∈ d :=
    ((List.dropLast_sublist (d.drop 1)).trans (List.drop_sublist 1 d)).mem hdot
  have hcs' : cs = l ++ '@' :: (d ++ ['\n']) := by
    rw [← hcs, hdec]; simp
  unfold dotAfterAt
  rw [hcs', splitAtFirst_of_append '@' l (d ++ ['\n']) hnotin]
  exact List.elem_iff.mpr (List.mem_append_left _ hdotd)

/-- A single collected way to show the Python regex rejects an input. -/
theorem EMAIL_RE_match_eq_false {s : String}
    (h1 : inL s.data = false)
    (h2 : ∀ c, s.data.getLast? = some c →
      (decide (c = '\n') && inL s.data.dropLast) = false) :
    EMAIL_RE_match s = false := by
  unfold EMAIL_RE_match
  rw [h1]
  cases hl : s.data.getLast? with
  | none => rfl
  | some c => simp [h2 c hl]

theorem EMAIL_RE_match_false_of_no_dotAfterAt {s : String}
    (h : dotAfterAt s.data = false) : EMAIL_RE_match s = false := by
  refine EMAIL_RE_match_eq_false ?_ ?_
  · cases hi : inL s.data with
    | false => rfl
    | true => rw [inL_dotAfterAt hi] at h; cases h
  · intro c hc
    cases hi : inL s.data.dropLast with
    | false => simp
    | true =>
      by_cases hn : c = '\n'
      · subst hn
        rw [inL_dropLast_dotAfterAt hc hi] at h
        cases h
      · simp [hn]

/-- The first character of a member of the regex language is an
`[^@\s]` character. -/
theorem inL_head_ok {cs : List Char} (h : inL cs = true) :
    ∃ c, cs.head? = some c ∧ okChar c = true := by
  obtain ⟨l, d, hdec, hne, hl, _, _, _⟩ := inL_decomp h
  cases l with
  | nil => exact absurd rfl hne
  | cons a l' =>
    refine ⟨a, ?_, hl a (List.mem_cons_self a l')⟩
    rw [hdec]
    simp

/-- The last character of a member of the regex language is an
`[^@\s]` character. -/
theorem inL_last_ok {cs : List Char} (h : inL cs = true) :
    ∃ c, cs.getLast? = some c ∧ okChar c = true := by
  obtain ⟨l, d, hdec, _, _, hd, hdot, _⟩ := inL_decomp h
  have hdotd : '.' ∈ d :=
    ((List.dropLast_sublist (d.drop 1)).trans (List.drop_sublist 1 d)).mem hdot
  have hdne : d ≠ [] := List.ne_nil_of_mem hdotd
  have hlast : cs.getLast? = d.getLast? := by
    rw [hdec, List.getLast?_append_cons]
    cases d with
    | nil => exact absurd rfl hdne
    | cons b d' => rw [List.getLast?_cons_cons]
  have hsome : d.getLast? = some (d.getLast hdne) :=
    List.getLast?_eq_getLast_of_ne_nil hdne
  refine ⟨d.getLast hdne, by rw [hlast, hsome], hd _ (List.getLast_mem hdne)⟩

/-- The head of a list's `dropLast` is the head of the list. -/
theorem head?_dropLast {cs : List Char} {c : Char}
    (h : cs.dropLast.head? = some c) : cs.head? = some c := by
  match cs with
  | [] => simp at h
  | [a] => simp at h
  | a :: b :: t =>
    rw [List.dropLast_cons₂] at h
    rw [List.head?_cons] at h ⊢
    exact h

/-- An `[^@\s]` character is not whitespace. -/
theorem okChar_not_space {c : Char} (h : okChar c = true) :
    isPySpace c = false := by
  unfold okChar at h
  simp only [Bool.not_eq_true', Bool.or_eq_false_iff] at h
  exact h.2

/- ------------------------------------------------------------------ -/
/- Claims C3, C4, C8, C10 about the two side-effect handlers.          -/
/- ------------------------------------------------------------------ -/

/-- C3: for every email string lacking an `@`, or lacking a `.` after the
`@`, `record_customer_interest` returns ok false with error
"invalid_email" together with the generated lead id and timestamp and
leaves the lead log unchanged; calling it twice with the same invalid
email (second call on the log left by the first) yields two independent
ok-false results and no log growth. -/
theorem c3_invalid_email_rejected_without_append
    (email name1 msg1 lead_id1 ts1 name2 msg2 lead_id2 ts2 : String)
    (log : List LeadEvent) (h : dotAfterAt email.data = false) :
    record_customer_interest email name1 msg1 lead_id1 ts1 log =
      ({ ok := false, error := some "invalid_email", lead_id := some lead_id1,
         feedback_id := none, ts := some ts1, received_args := none }, log) ∧
    record_customer_interest email name2 msg2 lead_id2 ts2 log =
      ({ ok := false, error := some "invalid_email", lead_id := some lead_id2,
         feedback_id := none, ts := some ts2, received_args := none }, log) := by
  have hm := EMAIL_RE_match_false_of_no_dotAfterAt h
  constructor <;> simp [record_customer_interest, hm]

/-- Witness for C3 at the concrete invalid email "jane.doe-at-example". -/
theorem c3_invalid_email_rejected_without_append_witness :
    record_customer_interest "jane.doe-at-example" "Jane" "hi" "id1" "t1" [] =
      ({ ok := false, error := some "invalid_email", lead_id := some "id1",
         feedback_id := none, ts := some "t1", received_args := none }, []) ∧
    record_customer_interest "jane.doe-at-example" "Jane" "hi" "id2" "t2" [] =
      ({ ok := false, error := some "invalid_email", lead_id := some "id2",
         feedback_id := none, ts := some "t2", received_args := none }, []) :=
  c3_invalid_email_rejected_without_append
    "jane.doe-at-example" "Jane" "hi" "id1" "t1" "Jane" "hi" "id2" "t2" []
    (by decide)

/-- C4: for every email accepted by the `EMAIL_RE` pattern,
`record_customer_interest` returns ok true carrying the freshly generated
lead id and UTC timestamp and appends exactly one lead event to the lead
log, with all three string fields stripped of surrounding whitespace. -/
theorem c4_valid_email_appends_single_lead
    (email name message lead_id ts : String) (log : List LeadEvent)
    (h : EMAIL_RE_match email = true) :
    record_customer_interest email name message lead_id ts log =
      ({ ok := true, error := none, lead_id := some lead_id,
         feedback_id := none, ts := some ts, received_args := none },
       log ++ [{ ts := ts, lead_id := lead_id, email := pyStrip email,
                 name := pyStrip name, message := pyStrip message }]) := by
  simp [record_customer_interest, h]

/-- Witness for C4 at the concrete valid email "jane@example.com". -/
theorem c4_valid_email_appends_single_lead_witness :
    record_customer_interest "jane@example.com" " Jane " "poetry chapbook"
        "id1" "t1" [] =
      ({ ok := true, error := none, lead_id := some "id1",
         feedback_id := none, ts := some "t1", received_args := none },
       [{ ts := "t1", lead_id := "id1", email := "jane@example.com",
          name := "Jane", message := "poetry chapbook" }]) := by
  have := c4_valid_email_appends_single_lead "jane@example.com" " Jane "
    "poetry chapbook" "id1" "t1" [] (by decide)
  rw [this]
  decide

/-- C8: for every question string, the empty string included,
`record_feedback` performs no validation beyond stripping, returns ok true
carrying the fresh feedback id and UTC timestamp, and appends exactly one
feedback event holding the stripped question to the feedback log. -/
theorem c8_record_feedback_always_records
    (question fb_id ts : String) (fbLog : List FeedbackEvent) :
    record_feedback question fb_id ts fbLog =
      ({ ok := true, error := none, lead_id := none,
         feedback_id := some fb_id, ts := some ts, received_args := none },
       fbLog ++ [{ ts := ts, feedback_id := fb_id,
                   question := pyStrip question }]) := rfl

/-- Counterexample to C10 as stated: the email "a@b.c\n" carries trailing
whitespace, yet the Python `$` anchor matches just before a newline that
ends the string, so `record_customer_interest` accepts it, appends a lead
(with the email stripped to "a@b.c") and returns ok true — not the claimed
invalid_email failure with an unchanged log. -/
theorem c10_counterexample :
    record_customer_interest "a@b.c\n" "Jane" "hi" "id1" "t1" [] =
      ({ ok := true, error := none, lead_id := some "id1",
         feedback_id := none, ts := some "t1", received_args := none },
       [{ ts := "t1", lead_id := "id1", email := "a@b.c",
          name := "Jane", message := "hi" }]) := by decide

/-- C10 amended: validation is applied to the untrimmed input except that
the `$` anchor tolerates a single final newline.  Every email whose first
character is whitespace, and every email whose last character is
whitespace other than a sole tolerated newline (a final `'\n'` whose
removal leaves a member of the regex language), is rejected with
invalid_email and appends nothing, even when stripping would make it
valid; stripping happens only when the stored event is built, after
validation has passed. -/
theorem c10_validation_on_untrimmed_amended
    (email name message lead_id ts : String) (log : List LeadEvent)
    (h : (∃ c, email.data.head? = some c ∧ isPySpace c = true) ∨
         (∃ c, email.data.getLast? = some c ∧ isPySpace c = true ∧
            (c ≠ '\n' ∨ inL email.data.dropLast = false))) :
    record_customer_interest email name message lead_id ts log =
      ({ ok := false, error := some "invalid_email", lead_id := some lead_id,
         feedback_id := none, ts := some ts, received_args := none }, log) := by
  have hm : EMAIL_RE_match email = false := by
    rcases h with ⟨c, hhead, hws⟩ | ⟨c, hlast, hws, hrest⟩
    · refine EMAIL_RE_match_eq_false ?_ ?_
      · cases hi : inL email.data with
        | false => rfl
        | true =>
          obtain ⟨c', hh', hok⟩ := inL_head_ok hi
          rw [hhead] at hh'
          cases hh'
          rw [okChar_not_space hok] at hws
          cases hws
      · intro c' _
        cases hi : inL email.data.dropLast with
        | false => simp
        | true =>
          obtain ⟨c'', hh'', hok⟩ := inL_head_ok hi
          have := head?_dropLast hh''
          rw [hhead] at this
          cases this
          rw [okChar_not_space hok] at hws
          cases hws
    · refine EMAIL_RE_match_eq_false ?_ ?_
      · cases hi : inL email.data with
        | false => rfl
        | true =>
          obtain ⟨c', hl', hok⟩ := inL_last_ok hi
          rw [hlast] at hl'
          cases hl'
          rw [okChar_not_space hok] at hws
          cases hws
      · intro c' hc'
        rw [hlast] at hc'
        cases hc'
        rcases hrest with hn | hi
        · simp [hn]
        · rw [hi]
          simp
  simp [record_customer_interest, hm]

/-- Witness for C10 amended at the leading-whitespace email " a@b.c". -/
theorem c10_validation_on_untrimmed_amended_witness :
    record_customer_interest " a@b.c" "Jane" "hi" "id1" "t1" [] =
      ({ ok := false, error := some "invalid_email", lead_id := some "id1",
         feedback_id := none, ts := some "t1", received_args := none }, []) :=
  c10_validation_on_untrimmed_amended " a@b.c" "Jane" "hi" "id1" "t1" []
    (Or.inl ⟨' ', by decide, by decide⟩)

/- ------------------------------------------------------------------ -/
/- Helper lemmas about the orchestration loop.                         -/
/- ------------------------------------------------------------------ -/

/-- Scanning a parts list with no function call changes nothing. -/
theorem runParts_no_calls (reg : Registry) :
    ∀ (ps : List Part), callsOfParts ps = [] →
      ∀ (chat : ChatState) (resp : ModelResponse) (st : ToolSt) (c : Bool),
        runParts reg ps chat resp st c = some (chat, resp, st, c) := by
  intro ps
  induction ps with
  | nil => intro _ chat resp st c; simp [runParts]
  | cons p rest ih =>
    intro h chat resp st c
    cases p with
    | text s =>
      simp only [callsOfParts, List.filterMap_cons] at h
      exact (by simpa [runParts] using ih h chat resp st c)
    | functionCall n a =>
      simp [callsOfParts, List.filterMap_cons] at h

/-- Scanning a parts list with exactly one function call sends exactly one
tool result and leaves the reply to that send as the current response. -/
theorem runParts_single_call (reg : Registry) :
    ∀ (ps : List Part) (n : String) (a : List (String × String)),
      callsOfParts ps = [(n, a)] →
      ∀ (chat : ChatState) (resp : ModelResponse) (st : ToolSt) (c : Bool)
        (r1 : ModelResponse) (rest : List ModelResponse),
        chat.script = r1 :: rest →
        runParts reg ps chat resp st c =
          some ({ history := chat.history ++
                    [Msg.tool n (runToolCall reg n a st).1, Msg.model r1.parts],
                  script := rest }, r1, (runToolCall reg n a st).2, true) := by
  intro ps
  induction ps with
  | nil => intro n a h; simp [callsOfParts] at h
  | cons p rest ih =>
    intro n a h chat resp st c r1 rest' hscr
    cases p with
    | text s =>
      simp only [callsOfParts, List.filterMap_cons] at h
      exact (by simpa [runParts] using ih n a h chat resp st c r1 rest' hscr)
    | functionCall n' a' =>
      simp only [callsOfParts, List.filterMap_cons, List.cons.injEq,
        Prod.mk.injEq] at h
      obtain ⟨⟨hn, ha⟩, hrest⟩ := h
      subst hn; subst ha
      have hcalls : callsOfParts rest = [] := hrest
      simp only [runParts, send_message, hscr]
      rw [runParts_no_calls reg rest hcalls]

/-- Scanning a parts list holding a function call with the script
exhausted fails (the scripted model has no reply to the send). -/
theorem runParts_single_call_exhausted (reg : Registry) :
    ∀ (ps : List Part) (n : String) (a : List (String × String)),
      callsOfParts ps = [(n, a)] →
      ∀ (chat : ChatState) (resp : ModelResponse) (st : ToolSt) (c : Bool),
        chat.script = [] →
        runParts reg ps chat resp st c = none := by
  intro ps
  induction ps with
  | nil => intro n a h; simp [callsOfParts] at h
  | cons p rest ih =>
    intro n a h chat resp st c hscr
    cases p with
    | text s =>
      simp only [callsOfParts, List.filterMap_cons] at h
      exact (by simpa [runParts] using ih n a h chat resp st c hscr)
    | functionCall n' a' =>
      simp [runParts, send_message, hscr]

/-- One tool call answered by a call-free reply: the loop does exactly one
round-trip and returns that reply. -/
theorem runLoop_single_then_stop (reg : Registry)
    (fuel : Nat) (chat : ChatState) (resp : ModelResponse) (st : ToolSt)
    (n : String) (a : List (String × String)) (r1 : ModelResponse)
    (rest : List ModelResponse)
    (h0 : callsOfParts resp.parts = [(n, a)])
    (hscr : chat.script = r1 :: rest)
    (h1 : callsOfParts r1.parts = []) :
    runLoop reg (fuel + 2) chat resp st =
      some ({ history := chat.history ++
                [Msg.tool n (runToolCall reg n a st).1, Msg.model r1.parts],
              script := rest }, r1, (runToolCall reg n a st).2) := by
  have hstep := runParts_single_call reg resp.parts n a h0 chat resp st false r1 rest hscr
  simp only [runLoop, hstep]
  rw [runParts_no_calls reg r1.parts h1]
  simp

/-- The loop preserves balanced histories when every scanned response
carries at most one function call. -/
theorem runLoop_balanced (reg : Registry) :
    ∀ (fuel : Nat) (chat : ChatState) (resp : ModelResponse) (st : ToolSt)
      (H : List Msg) (chat' : ChatState) (resp' : ModelResponse) (st' : ToolSt),
      chat.history = H ++ [Msg.model resp.parts] →
      BalancedHist H →
      (callsOfParts resp.parts).length ≤ 1 →
      (∀ r ∈ chat.script, (callsOfParts r.parts).length ≤ 1) →
      runLoop reg fuel chat resp st = some (chat', resp', st') →
      BalancedHist chat'.history := by
  intro fuel
  induction fuel with
  | zero => intro chat resp st H c' r' s' _ _ _ _ h; cases h
  | succ fuel ih =>
    intro chat resp st H chat' resp' st' hH hB hle hscript hrun
    cases hc : callsOfParts resp.parts with
    | nil =>
      rw [runLoop, runParts_no_calls reg resp.parts hc chat resp st false] at hrun
      simp only [Bool.false_eq_true, if_false, Option.some.injEq,
        Prod.mk.injEq] at hrun
      obtain ⟨h1, _, _⟩ := hrun
      subst h1
      rw [hH]
      exact BalancedHist.modelNoCall H resp.parts hc hB
    | cons hd tl =>
      obtain ⟨n, a⟩ := hd
      have htl : tl = [] := by
        rw [hc] at hle
        simpa using hle
      subst htl
      cases hscr : chat.script with
      | nil =>
        rw [runLoop,
          runParts_single_call_exhausted reg resp.parts n a hc chat resp st false hscr]
          at hrun
        cases hrun
      | cons r1 rest =>
        rw [runLoop,
          runParts_single_call reg resp.parts n a hc chat resp st false r1 rest hscr]
          at hrun
        simp only [if_true] at hrun
        refine ih _ r1 _
          (H ++ [Msg.model resp.parts, Msg.tool n (runToolCall reg n a st).1])
          chat' resp' st' ?_ ?_ ?_ ?_ hrun
        · rw [hH]; simp
        · exact BalancedHist.modelPaired H resp.parts n a _ hc hB
        · exact hscript r1 (by rw [hscr]; exact List.mem_cons_self _ _)
        · intro r hr
          exact hscript r (by rw [hscr]; exact List.mem_cons_of_mem _ hr)

theorem callNames_append :
    ∀ (a b : List Msg), callNames (a ++ b) = callNames a ++ callNames b := by
  intro a b
  induction a with
  | nil => simp [callNames]
  | cons m rest ih => cases m <;> simp [callNames, ih]

theorem toolMsgNames_append :
    ∀ (a b : List Msg), toolMsgNames (a ++ b) = toolMsgNames a ++ toolMsgNames b := by
  intro a b
  induction a with
  | nil => simp [toolMsgNames]
  | cons m rest ih => cases m <;> simp [toolMsgNames, ih]

/-- In a balanced history the sequence of requested tool names equals the
sequence of answered tool names. -/
theorem balanced_names {h : List Msg} (hb : BalancedHist h) :
    callNames h = toolMsgNames h := by
  induction hb with
  | nil => rfl
  | user h t _ ih =>
    rw [callNames_append, toolMsgNames_append, ih]
    simp [callNames, toolMsgNames]
  | modelNoCall h ps hc _ ih =>
    rw [callNames_append, toolMsgNames_append, ih]
    simp [callNames, toolMsgNames, callNamesOfParts, hc]
  | modelPaired h ps n a r hc _ ih =>
    rw [callNames_append, toolMsgNames_append, ih]
    simp [callNames, toolMsgNames, callNamesOfParts, hc]

/-- A some-valued index lookup survives appending on the right. -/
theorem getElem?_append_left_of_some {α : Type} {a b : List α} {j : Nat}
    {m : α} (hj : a[j]? = some m) : (a ++ b)[j]? = some m := by
  have hlt : j < a.length := by
    by_contra hge
    push_neg at hge
    rw [List.getElem?_eq_none hge] at hj
    cases hj
  rw [List.getElem?_append_left hlt]
  exact hj

/-- In a balanced history every function call in a recorded model message
is immediately followed by a tool message naming it. -/
theorem balanced_follow {h : List Msg} (hb : BalancedHist h) :
    ∀ (i : Nat) (ps : List Part) (n : String),
      h[i]? = some (Msg.model ps) → n ∈ callNamesOfParts ps →
      ∃ res, h[i + 1]? = some (Msg.tool n res) := by
  induction hb with
  | nil => intro i ps n hi _; simp at hi
  | user h t _ ih =>
    intro i ps n hi hn
    by_cases hlt : i < h.length
    · rw [List.getElem?_append_left hlt] at hi
      obtain ⟨res, hres⟩ := ih i ps n hi hn
      exact ⟨res, getElem?_append_left_of_some hres⟩
    · push_neg at hlt
      rw [List.getElem?_append_right hlt] at hi
      rcases hk : i - h.length with _ | k
      · rw [hk] at hi; simp at hi
      · rw [hk] at hi; simp at hi
  | modelNoCall h ps' hc _ ih =>
    intro i ps n hi hn
    by_cases hlt : i < h.length
    · rw [List.getElem?_append_left hlt] at hi
      obtain ⟨res, hres⟩ := ih i ps n hi hn
      exact ⟨res, getElem?_append_left_of_some hres⟩
    · push_neg at hlt
      rw [List.getElem?_append_right hlt] at hi
      rcases hk : i - h.length with _ | k
      · rw [hk] at hi
        simp only [List.getElem?_cons_zero, Option.some.injEq] at hi
        have hps : ps = ps' := by cases hi; rfl
        subst hps
        rw [callNamesOfParts, hc] at hn
        simp at hn
      · rw [hk] at hi; simp at hi
  | modelPaired h ps' n' a r hc _ ih =>
    intro i ps n hi hn
    by_cases hlt : i < h.length
    · rw [List.getElem?_append_left hlt] at hi
      obtain ⟨res, hres⟩ := ih i ps n hi hn
      exact ⟨res, getElem?_append_left_of_some hres⟩
    · push_neg at hlt
      rw [List.getElem?_append_right hlt] at hi
      rcases hk : i - h.length with _ | k
      · rw [hk] at hi
        simp only [List.getElem?_cons_zero, Option.some.injEq] at hi
        have hps : ps = ps' := by cases hi; rfl
        subst hps
        rw [callNamesOfParts, hc] at hn
        simp only [List.map_cons, List.map_nil, List.mem_singleton] at hn
        subst hn
        have hieq : i = h.length := by omega
        refine ⟨r, ?_⟩
        rw [List.getElem?_append_right (by omega : h.length ≤ i + 1)]
        have : i + 1 - h.length = 1 := by omega
        rw [this]
        rfl
      · rw [hk] at hi
        rcases hk2 : k with _ | k'
        · rw [hk2] at hi; simp at hi
        · rw [hk2] at hi; simp at hi

/- ------------------------------------------------------------------ -/
/- Claims C1, C2, C5, C6, C7, C9 about the orchestration loop.         -/
/- ------------------------------------------------------------------ -/

/-- Counterexample to C1 as stated: a scripted exchange in which the first
response carries two tool calls and the reply to the first tool-result
send carries a further call (ghost_tool).  The loop keeps iterating the
snapshot of the first response's parts, so that intermediate reply is
overwritten before its call is ever executed: the final history contains a
ghost_tool call and no tool message naming ghost_tool at all, violating
the claimed exactly-one-matching-ToolResult invariant. -/
theorem c1_counterexample :
    runLoop TOOLS_MAP 3 cexChat0 cexR0 cexSt0 = some (cexChatF, cexR2, cexStF) ∧
    "ghost_tool" ∈ callNames cexChatF.history ∧
    "ghost_tool" ∉ toolMsgNames cexChatF.history := by
  refine ⟨by decide, by decide, by decide⟩

/-- C1 amended: provided every response scanned during the exchange (the
one entering the loop and every scripted reply) carries at most one
ToolCall, the invariant holds, in its positional form: at loop exit the
sequence of tool names requested in recorded model messages equals the
sequence of tool names answered by tool messages, and every ToolCall in
history is immediately followed by its one matching ToolResult message.
Without that proviso the invariant is false (see the counterexample): a
ToolCall in an intermediate reply may be dropped without a result. -/
theorem c1_every_call_answered_when_single
    (reg : Registry) (fuel : Nat) (chat : ChatState) (resp : ModelResponse)
    (st : ToolSt) (H : List Msg) (chat' : ChatState) (resp' : ModelResponse)
    (st' : ToolSt)
    (hH : chat.history = H ++ [Msg.model resp.parts])
    (hB : BalancedHist H)
    (hle : (callsOfParts resp.parts).length ≤ 1)
    (hscript : ∀ r ∈ chat.script, (callsOfParts r.parts).length ≤ 1)
    (hrun : runLoop reg fuel chat resp st = some (chat', resp', st')) :
    callNames chat'.history = toolMsgNames chat'.history ∧
    ∀ (i : Nat) (ps : List Part) (n : String),
      chat'.history[i]? = some (Msg.model ps) → n ∈ callNamesOfParts ps →
      ∃ res, chat'.history[i + 1]? = some (Msg.tool n res) := by
  have hbal := runLoop_balanced reg fuel chat resp st H chat' resp' st'
    hH hB hle hscript hrun
  exact ⟨balanced_names hbal, balanced_follow hbal⟩

/-- Witness for C1 amended on the concrete single-call exchange. -/
theorem c1_every_call_answered_when_single_witness :
    (callNames wChatF.history = toolMsgNames wChatF.history ∧
     ∀ (i : Nat) (ps : List Part) (n : String),
       wChatF.history[i]? = some (Msg.model ps) → n ∈ callNamesOfParts ps →
       ∃ res, wChatF.history[i + 1]? = some (Msg.tool n res)) :=
  c1_every_call_answered_when_single TOOLS_MAP 2 wChat0 wR0 wSt0
    [Msg.user "hi"] wChatF wR1 wStF (by rfl)
    (BalancedHist.user [] "hi" BalancedHist.nil) (by decide) (by decide)
    (by decide)

/-- C2: one while-iteration of the loop refines the spec's per-call rule:
scanning a parts list executes exactly the function calls it contains, in
the order the model emitted them, sending each single ToolResult back
immediately and treating the reply to that send as the new current
response (`specToolTurns` is the literal transcription of that rule); and
each call costs exactly one model round-trip — two history messages and
one script entry per call, never batched. -/
theorem c2_calls_in_order_one_round_trip_each (reg : Registry)
    (ps : List Part) (chat : ChatState) (resp : ModelResponse) (st : ToolSt)
    (c : Bool) :
    runParts reg ps chat resp st c =
      (specToolTurns reg (callsOfParts ps) chat resp st).map
        (fun x => (x.1, x.2.1, x.2.2, c || !(callsOfParts ps).isEmpty)) ∧
    (∀ (chat' : ChatState) (resp' : ModelResponse) (st' : ToolSt) (c' : Bool),
      runParts reg ps chat resp st c = some (chat', resp', st', c') →
      chat'.history.length = chat.history.length + 2 * (callsOfParts ps).length ∧
      chat.script.length = chat'.script.length + (callsOfParts ps).length) := by
  have hmain : ∀ (qs : List Part) (ch : ChatState) (r : ModelResponse)
      (s : ToolSt) (b : Bool),
      runParts reg qs ch r s b =
        (specToolTurns reg (callsOfParts qs) ch r s).map
          (fun x => (x.1, x.2.1, x.2.2, b || !(callsOfParts qs).isEmpty)) := by
    intro qs
    induction qs with
    | nil => intro ch r s b; simp [runParts, specToolTurns, callsOfParts]
    | cons p rest ih =>
      intro ch r s b
      cases p with
      | text t =>
        simp only [callsOfParts, List.filterMap_cons]
        exact (by simpa [runParts, callsOfParts] using ih ch r s b)
      | functionCall n a =>
        simp only [callsOfParts, List.filterMap_cons]
        rw [runParts, specToolTurns]
        cases hsm : send_message ch (Msg.tool n (runToolCall reg n a s).1) with
        | none => simp [hsm]
        | some q =>
          obtain ⟨ch', r'⟩ := q
          simp only [hsm, ih ch' r' (runToolCall reg n a s).2 true,
            List.isEmpty_cons, Bool.not_false, Bool.or_true, Bool.true_or]
          rfl
  have hcount : ∀ (calls : List (String × List (String × String)))
      (ch ch' : ChatState) (r r' : ModelResponse) (s s' : ToolSt),
      specToolTurns reg calls ch r s = some (ch', r', s') →
      ch'.history.length = ch.history.length + 2 * calls.length ∧
      ch.script.length = ch'.script.length + calls.length := by
    intro calls
    induction calls with
    | nil =>
      intro ch ch' r r' s s' h
      simp only [specToolTurns, Option.some.injEq, Prod.mk.injEq] at h
      obtain ⟨h1, _, _⟩ := h
      subst h1
      simp
    | cons hd tl ih =>
      intro ch ch' r r' s s' h
      obtain ⟨n, a⟩ := hd
      cases hscr : ch.script with
      | nil =>
        rw [specToolTurns] at h
        simp only [send_message, hscr] at h
        cases h
      | cons rr rest =>
        rw [specToolTurns] at h
        simp only [send_message, hscr] at h
        obtain ⟨ihh, ihs⟩ := ih _ _ _ _ _ _ h
        simp at ihh ihs
        constructor
        · simp only [List.length_cons]
          omega
        · simp only [List.length_cons]
          omega
  refine ⟨hmain ps chat resp st c, ?_⟩
  intro chat' resp' st' c' hr
  rw [hmain ps chat resp st c] at hr
  cases hsp : specToolTurns reg (callsOfParts ps) chat resp st with
  | none => rw [hsp] at hr; cases hr
  | some q =>
    obtain ⟨ch1, r1, s1⟩ := q
    rw [hsp] at hr
    simp at hr
    obtain ⟨h1, _, _⟩ := hr
    subst h1
    exact hcount (callsOfParts ps) chat ch1 resp r1 st s1 hsp

/-- Witness for C2 on the concrete single-call exchange. -/
theorem c2_calls_in_order_one_round_trip_each_witness :
    wChatF.history.length = wChat0.history.length + 2 * (callsOfParts wR0.parts).length ∧
    wChat0.script.length = wChatF.script.length + (callsOfParts wR0.parts).length :=
  (c2_calls_in_order_one_round_trip_each TOOLS_MAP wR0.parts wChat0 wR0 wSt0
    false).2 wChatF wR1 wStF true (by decide)

/-- C5: for every tool call dispatched to a resolved handler the loop
never lets an exception propagate: a returned result is passed through, a
TypeError (argument-shape mismatch) is caught and synthesized as
ok false with error "bad_arguments:<details>" plus the received arguments,
and any other raised exception is caught and synthesized as ok false with
error "runtime:<kind>:<details>". -/
theorem c5_handler_failures_synthesized (reg : Registry) (name : String)
    (args : List (String × String)) (st : ToolSt) (fn : Handler)
    (h : reg name = some fn) :
    (∀ (r : ToolResultVal) (st' : ToolSt),
      fn args st = (HandlerOutcome.success r, st') →
      runToolCall reg name args st = (r, st')) ∧
    (∀ (d : String) (st' : ToolSt),
      fn args st = (HandlerOutcome.typeError d, st') →
      runToolCall reg name args st =
        ({ ok := false, error := some ("bad_arguments:" ++ d),
           lead_id := none, feedback_id := none, ts := none,
           received_args := some args }, st')) ∧
    (∀ (k d : String) (st' : ToolSt),
      fn args st = (HandlerOutcome.otherError k d, st') →
      runToolCall reg name args st =
        ({ ok := false, error := some ("runtime:" ++ k ++ ":" ++ d),
           lead_id := none, feedback_id := none, ts := none,
           received_args := none }, st')) := by
  refine ⟨?_, ?_, ?_⟩
  · intro r st' he; simp [runToolCall, h, he]
  · intro d st' he; simp [runToolCall, h, he]
  · intro k d st' he; simp [runToolCall, h, he]

/-- Witness for C5: the raising handler's TypeError is synthesized as a
bad_arguments result. -/
theorem c5_handler_failures_synthesized_witness :
    runToolCall wBadReg "flaky" [] wSt0 =
      ({ ok := false, error := some "bad_arguments:missing question",
         lead_id := none, feedback_id := none, ts := none,
         received_args := some [] }, wSt0) :=
  (c5_handler_failures_synthesized wBadReg "flaky" [] wSt0 wBadHandler
    rfl).2.1 "missing question" wSt0 rfl

/-- C6: a tool call whose name the registry does not resolve neither
raises nor aborts the loop: the ToolResult is synthesized as ok false with
error "unknown_tool:<name>" (so the error starts with "unknown_tool:")
carrying the received arguments, the tool state is untouched, and the
conversation continues — the loop sends that result and keeps going
exactly as for a resolved call. -/
theorem c6_unknown_tool_synthesized (reg : Registry) (name : String)
    (args : List (String × String)) (st : ToolSt)
    (h : reg name = none) :
    runToolCall reg name args st =
      ({ ok := false, error := some ("unknown_tool:" ++ name),
         lead_id := none, feedback_id := none, ts := none,
         received_args := some args }, st) ∧
    (∃ s, (runToolCall reg name args st).1.error = some s ∧
      "unknown_tool:".data <+: s.data) ∧
    (∀ (fuel : Nat) (chat : ChatState) (resp : ModelResponse)
       (r1 : ModelResponse) (rest : List ModelResponse),
       resp.parts = [Part.functionCall name args] →
       chat.script = r1 :: rest →
       callsOfParts r1.parts = [] →
       runLoop reg (fuel + 2) chat resp st =
         some ({ history := chat.history ++
                   [Msg.tool name
                      ({ ok := false,
                         error := some ("unknown_tool:" ++ name),
                         lead_id := none, feedback_id := none, ts := none,
                         received_args := some args } : ToolResultVal),
                    Msg.model r1.parts],
                 script := rest }, r1, st)) := by
  have hbase : runToolCall reg name args st =
      ({ ok := false, error := some ("unknown_tool:" ++ name),
         lead_id := none, feedback_id := none, ts := none,
         received_args := some args }, st) := by
    simp [runToolCall, h]
  refine ⟨hbase, ⟨"unknown_tool:" ++ name, by rw [hbase], ?_⟩, ?_⟩
  · rw [String.data_append]
    exact List.prefix_append _ _
  · intro fuel chat resp r1 rest hparts hscr h1
    have hcalls : callsOfParts resp.parts = [(name, args)] := by
      rw [hparts]; rfl
    have := runLoop_single_then_stop reg fuel chat resp st name args r1 rest
      hcalls hscr h1
    rw [hbase] at this
    exact this

/-- Witness for C6 at the unregistered tool name "summon_dragon". -/
theorem c6_unknown_tool_synthesized_witness :
    runToolCall TOOLS_MAP "summon_dragon" [("x", "1")] wSt0 =
      ({ ok := false, error := some "unknown_tool:summon_dragon",
         lead_id := none, feedback_id := none, ts := none,
         received_args := some [("x", "1")] }, wSt0) :=
  (c6_unknown_tool_synthesized TOOLS_MAP "summon_dragon" [("x", "1")] wSt0
    rfl).1

/-- C7: with a scripted model that requests one tool call and then answers
the tool result with a call-free response, `ask` terminates, performs
exactly one tool round-trip (the final history holds exactly one new tool
message), and returns the final response's extracted text. -/
theorem c7_single_round_trip_then_final_text
    (reg : Registry) (fuel : Nat) (chat : ChatState) (t : String)
    (st : ToolSt) (r0 r1 : ModelResponse) (n : String)
    (a : List (String × String))
    (hscript : chat.script = [r0, r1])
    (h0 : callsOfParts r0.parts = [(n, a)])
    (h1 : callsOfParts r1.parts = []) :
    ask reg (fuel + 2) chat t st =
      some (extractFinalText r1,
        { history := chat.history ++
            [Msg.user t, Msg.model r0.parts,
             Msg.tool n (runToolCall reg n a st).1, Msg.model r1.parts],
          script := [] }, (runToolCall reg n a st).2) ∧
    toolMsgNames (chat.history ++
        [Msg.user t, Msg.model r0.parts,
         Msg.tool n (runToolCall reg n a st).1, Msg.model r1.parts]) =
      toolMsgNames chat.history ++ [n] := by
  constructor
  · have hsend : send_message chat (Msg.user t) =
        some ({ history := chat.history ++ [Msg.user t, Msg.model r0.parts],
                script := [r1] }, r0) := by
      simp [send_message, hscript]
    have hloop := runLoop_single_then_stop reg fuel
      ({ history := chat.history ++ [Msg.user t, Msg.model r0.parts],
         script := [r1] }) r0 st n a r1 [] h0 rfl h1
    simp only [ask, hsend, hloop]
    simp
  · rw [toolMsgNames_append]
    simp [toolMsgNames]

/-- Witness for C7 on the concrete scripted exchange. -/
theorem c7_single_round_trip_then_final_text_witness :
    ask TOOLS_MAP 2 ({ history := [], script := [wR0, wR1] }) "hi" wSt0 =
      some (extractFinalText wR1,
        { history := ([] : List Msg) ++
            [Msg.user "hi", Msg.model wR0.parts,
             Msg.tool "record_feedback"
               (runToolCall TOOLS_MAP "record_feedback" [("question", "q")] wSt0).1,
             Msg.model wR1.parts],
          script := [] },
        (runToolCall TOOLS_MAP "record_feedback" [("question", "q")] wSt0).2) ∧
    toolMsgNames (([] : List Msg) ++
        [Msg.user "hi", Msg.model wR0.parts,
         Msg.tool "record_feedback"
           (runToolCall TOOLS_MAP "record_feedback" [("question", "q")] wSt0).1,
         Msg.model wR1.parts]) =
      toolMsgNames ([] : List Msg) ++ ["record_feedback"] :=
  c7_single_round_trip_then_final_text TOOLS_MAP 0
    ({ history := [], script := [wR0, wR1] }) "hi" wSt0 wR0 wR1
    "record_feedback" [("question", "q")] rfl (by decide) (by decide)

/-- C9: `ask` extracts the final text by preferring the response's
consolidated text property; when reading that property raises, it returns
the text attributes of the plain-text parts of the first candidate, in
order, joined by newlines. -/
theorem c9_final_text_extraction (reg : Registry) (fuel : Nat)
    (chat chat1 chatF : ChatState) (t : String) (st stF : ToolSt)
    (resp respF : ModelResponse)
    (h1 : send_message chat (Msg.user t) = some (chat1, resp))
    (h2 : runLoop reg fuel chat1 resp st = some (chatF, respF, stF)) :
    ask reg fuel chat t st = some (extractFinalText respF, chatF, stF) ∧
    (∀ s, respF.textProp = some s → extractFinalText respF = s) ∧
    (respF.textProp = none →
      extractFinalText respF = String.intercalate "\n"
        (respF.parts.filterMap (fun p =>
          match p with
          | Part.text s => some s
          | _ => none))) := by
  refine ⟨?_, ?_, ?_⟩
  · simp [ask, h1, h2]
  · intro s hs; simp [extractFinalText, hs]
  · intro hs; simp [extractFinalText, hs]

/-- Witness for C9 on a scripted reply whose text property raises and that
carries two plain-text parts. -/
theorem c9_final_text_extraction_witness :
    ask TOOLS_MAP 1 wAskChat "hi" wSt0 =
      some (extractFinalText wNoTextResp, wAskChat1, wSt0) ∧
    (∀ s, wNoTextResp.textProp = some s → extractFinalText wNoTextResp = s) ∧
    (wNoTextResp.textProp = none →
      extractFinalText wNoTextResp = String.intercalate "\n"
        (wNoTextResp.parts.filterMap (fun p =>
          match p with
          | Part.text s => some s
          | _ => none))) :=
  c9_final_text_extraction TOOLS_MAP 1 wAskChat wAskChat1 wAskChat1 "hi"
    wSt0 wSt0 wNoTextResp wNoTextResp (by rfl) (by decide)

end GeminiAgent
